import Mathlib

/-!
Verification development for the qixiaofu bid crawler core.

Shallow embedding of the core subsystems (default bid parser, DaDanWang
parser, data manager persistence, crawl controller gate, article fetcher
pagination loop, and the SimpleCron scheduler) together with theorems
settling the frozen specification claims.

Text is modelled as `List Char`; Python regular expressions are embedded
as explicit scanning functions that follow the backtracking behaviour of
the concrete patterns used by the source (leftmost match, greedy or lazy
quantifiers as written). Machine arithmetic (MD5) uses `Nat` with explicit
reduction modulo powers of two. The ambient clock is passed in as an
explicit parameter wherever the source reads the current time.
-/

set_option maxRecDepth 100000

namespace Crawler

/-- Whitespace test for the Python regex class backslash-s and for
`str.strip` (Unicode whitespace; the practically occurring code points). -/
def pyIsSpace (c : Char) : Bool :=
  let n := c.toNat
  n = 0x20 || n = 0x09 || n = 0x0a || n = 0x0d || n = 0x0b || n = 0x0c ||
  n = 0x1c || n = 0x1d || n = 0x1e || n = 0x1f || n = 0x85 ||
  n = 0xa0 || n = 0x1680 || (0x2000 ≤ n && n ≤ 0x200a) ||
  n = 0x2028 || n = 0x2029 || n = 0x202f || n = 0x205f || n = 0x3000

/-- Python `str.strip()`: drop leading and trailing whitespace. -/
def pyStrip (s : List Char) : List Char :=
  ((s.dropWhile pyIsSpace).reverse.dropWhile pyIsSpace).reverse

/-- Python substring test `needle in hay`. -/
def isSubstr (needle hay : List Char) : Bool :=
  hay.tails.any (fun t => needle.isPrefixOf t)

/-- Python `str.strip()` on `String`. -/
def pyStripS (s : String) : String := ⟨pyStrip s.data⟩

/-- Python substring test on `String`. -/
def isSubstrS (needle hay : String) : Bool := isSubstr needle.data hay.data

namespace Md5

/-- UTF-8 encoding of one character, as byte values. -/
def utf8Char (c : Char) : List Nat :=
  let n := c.toNat
  if n < 0x80 then [n]
  else if n < 0x800 then [0xc0 + n / 64, 0x80 + n % 64]
  else if n < 0x10000 then
    [0xe0 + n / 4096, 0x80 + (n / 64) % 64, 0x80 + n % 64]
  else
    [0xf0 + n / 262144, 0x80 + (n / 4096) % 64, 0x80 + (n / 64) % 64,
     0x80 + n % 64]

/-- UTF-8 encoding of a character list (`str.encode("utf-8")`). -/
def utf8 (s : List Char) : List Nat := s.flatMap utf8Char

/-- Reduction modulo 2 to the 32. -/
def m32 (x : Nat) : Nat := x % 4294967296

/-- Rotate a 32-bit word left by `s` bits. -/
def rotl32 (x s : Nat) : Nat := m32 (x * 2 ^ s) ||| x / 2 ^ (32 - s)

/-- Bitwise complement of a 32-bit word. -/
def not32 (x : Nat) : Nat := 4294967295 ^^^ x

/-- Per-round shift amounts of MD5. -/
def shiftTable : List Nat :=
  [7, 12, 17, 22, 7, 12, 17, 22, 7, 12, 17, 22, 7, 12, 17, 22,
   5, 9, 14, 20, 5, 9, 14, 20, 5, 9, 14, 20, 5, 9, 14, 20,
   4, 11, 16, 23, 4, 11, 16, 23, 4, 11, 16, 23, 4, 11, 16, 23,
   6, 10, 15, 21, 6, 10, 15, 21, 6, 10, 15, 21, 6, 10, 15, 21]

/-- Sine-derived additive constants of MD5. -/
def kTable : List Nat :=
  [0xd76aa478, 0xe8c7b756, 0x242070db, 0xc1bdceee,
   0xf57c0faf, 0x4787c62a, 0xa8304613, 0xfd469501,
   0x698098d8, 0x8b44f7af, 0xffff5bb1, 0x895cd7be,
   0x6b901122, 0xfd987193, 0xa679438e, 0x49b40821,
   0xf61e2562, 0xc040b340, 0x265e5a51, 0xe9b6c7aa,
   0xd62f105d, 0x02441453, 0xd8a1e681, 0xe7d3fbc8,
   0x21e1cde6, 0xc33707d6, 0xf4d50d87, 0x455a14ed,
   0xa9e3e905, 0xfcefa3f8, 0x676f02d9, 0x8d2a4c8a,
   0xfffa3942, 0x8771f681, 0x6d9d6122, 0xfde5380c,
   0xa4beea44, 0x4bdecfa9, 0xf6bb4b60, 0xbebfbc70,
   0x289b7ec6, 0xeaa127fa, 0xd4ef3085, 0x04881d05,
   0xd9d4d039, 0xe6db99e5, 0x1fa27cf8, 0xc4ac5665,
   0xf4292244, 0x432aff97, 0xab9423a7, 0xfc93a039,
   0x655b59c3, 0x8f0ccc92, 0xffeff47d, 0x85845dd1,
   0x6fa87e4f, 0xfe2ce6e0, 0xa3014314, 0x4e0811a1,
   0xf7537e82, 0xbd3af235, 0x2ad7d2bb, 0xeb86d391]

/-- Little-endian byte decomposition of a number. -/
def leBytes (count x : Nat) : List Nat :=
  (List.range count).map (fun i => x / 256 ^ i % 256)

/-- Little-endian 32-bit word from four bytes. -/
def leWord (bytes : List Nat) : Nat :=
  bytes.reverse.foldl (fun acc b => acc * 256 + b) 0

/-- MD5 message padding: a 0x80 byte, zeros to 56 modulo 64, then the bit
length as a 64-bit little-endian quantity. -/
def padMessage (msg : List Nat) : List Nat :=
  let padZeros := (56 + 64 - (msg.length + 1) % 64) % 64
  msg ++ [0x80] ++ List.replicate padZeros 0 ++
    leBytes 8 (msg.length * 8 % 18446744073709551616)

/-- One of the 64 MD5 mixing steps on state `(a, b, c, d)`. -/
def md5Step (chunk : List Nat) (st : Nat × Nat × Nat × Nat) (i : Nat) :
    Nat × Nat × Nat × Nat :=
  let (a, b, c, d) := st
  let fg : Nat × Nat :=
    if i < 16 then ((b &&& c) ||| (not32 b &&& d), i)
    else if i < 32 then ((d &&& b) ||| (not32 d &&& c), (5 * i + 1) % 16)
    else if i < 48 then (b ^^^ c ^^^ d, (3 * i + 5) % 16)
    else (c ^^^ (b ||| not32 d), 7 * i % 16)
  let m := leWord ((chunk.drop (4 * fg.2)).take 4)
  let mixed := m32 (fg.1 + a + kTable.getD i 0 + m)
  (d, m32 (b + rotl32 mixed (shiftTable.getD i 0)), b, c)

/-- Process one 64-byte chunk, adding the mixed state to the running one. -/
def md5Chunk (st : Nat × Nat × Nat × Nat) (chunk : List Nat) :
    Nat × Nat × Nat × Nat :=
  let (a0, b0, c0, d0) := st
  let (a, b, c, d) := (List.range 64).foldl (md5Step chunk) (a0, b0, c0, d0)
  (m32 (a0 + a), m32 (b0 + b), m32 (c0 + c), m32 (d0 + d))

/-- The 16 digest bytes of the MD5 of a byte message. -/
def md5Bytes (msg : List Nat) : List Nat :=
  let padded := padMessage msg
  let chunks := (List.range (padded.length / 64)).map
    (fun i => (padded.drop (64 * i)).take 64)
  let (a, b, c, d) :=
    chunks.foldl md5Chunk (0x67452301, 0xefcdab89, 0x98badcfe, 0x10325476)
  leBytes 4 a ++ leBytes 4 b ++ leBytes 4 c ++ leBytes 4 d

/-- Lowercase hexadecimal digit. -/
def hexDigit (n : Nat) : Char := "0123456789abcdef".data.getD n '?'

/-- Lowercase hexadecimal rendering of the digest (`hexdigest()`). -/
def md5HexChars (msg : List Nat) : List Char :=
  (md5Bytes msg).flatMap (fun b => [hexDigit (b / 16), hexDigit (b % 16)])

end Md5

/-- Shared `_generate_id` of both parsers: the MD5 hex digest of
`"{project_name}-{purchaser}"` encoded as UTF-8, truncated to 16 hex
characters. -/
def generateId (projectName purchaser : List Char) : String :=
  ⟨(Md5.md5HexChars (Md5.utf8 (projectName ++ "-".data ++ purchaser))).take 16⟩

/-- Article metadata as consumed by the parsers (`article_meta.get`). -/
structure Meta where
  url : List Char
  title : List Char
deriving DecidableEq, Repr

/-- Structured bid record (`BidInfo` dataclass). The `to_dict` serialization
is the identity on this model. -/
structure BidInfo where
  id : String
  project_name : List Char
  budget : List Char
  purchaser : List Char
  doc_time : List Char
  project_number : List Char
  service_period : List Char
  content : List Char
  source_url : List Char
  source_title : List Char
  extracted_time : String
  status : String := "new"
deriving DecidableEq, Repr

namespace DefaultParser

/-- The seven field labels of `DefaultParser._LABELS`. -/
def projectNameLabel : List Char := "项目名称".data
def budgetLabel : List Char := "预算金额".data
def purchaserLabel : List Char := "采购人".data
def docTimeLabel : List Char := "获取采购文件".data
def projectNumberLabel : List Char := "项目编号".data
def servicePeriodLabel : List Char := "服务期限".data
def contentLabel : List Char := "采购内容".data

def allLabels : List (List Char) :=
  [projectNameLabel, budgetLabel, purchaserLabel, docTimeLabel,
   projectNumberLabel, servicePeriodLabel, contentLabel]

/-- Boundary labels for one field: every label other than its own
(`_build_pattern` joins `l for l in cls._LABELS if l != label`). -/
def othersOf (label : List Char) : List (List Char) :=
  allLabels.filter (fun l => l ≠ label)

/-- Separator class `[:：\s]` appearing after each label. -/
def sepChar (c : Char) : Bool := c = ':' || c = '：' || pyIsSpace c

/-- The lookahead `(?=\s*(?:BOUNDARIES|\Z))`: some run of whitespace
followed by another label, or whitespace running to the end of the text. -/
def lookaheadBoundary (others : List (List Char)) : List Char → Bool
  | [] => true
  | c :: t => others.any (fun l => l.isPrefixOf (c :: t)) ||
      (pyIsSpace c && lookaheadBoundary others t)

/-- Lazy capture `(.+?)` under DOTALL: at least one character, extended one
character at a time until the boundary lookahead holds at the end. A
capture running to the end of the text always succeeds (the `\Z` branch). -/
def captureLazy (others : List (List Char)) : List Char → List Char
  | [] => []
  | c :: t => if lookaheadBoundary others t then [c] else c :: captureLazy others t

/-- Matching attempt for `LABEL[:：\s]*(.+?)(?=...)` at the suffix that
follows the label text. The separator run is greedy; when it swallows the
whole remaining text the engine backtracks one separator character so that
the mandatory one-character capture can still succeed. Returns `none` only
when no character at all follows the label. -/
def captureAfterLabel (others : List (List Char)) (rest : List Char) :
    Option (List Char) :=
  let sep := rest.takeWhile sepChar
  let rem := rest.drop sep.length
  if rem.isEmpty then
    match rest.getLast? with
    | some c => some [c]
    | none => none
  else
    some (captureLazy others rem)

/-- `pattern.search` for a `.+?` field followed by `.group(1).strip()`
(`_extract_field`): leftmost occurrence of the label at which the rest of
the pattern matches; empty string when the pattern never matches. -/
def searchField (label : List Char) (others : List (List Char)) :
    List Char → List Char
  | [] => []
  | c :: t =>
    if label.isPrefixOf (c :: t) then
      match captureAfterLabel others ((c :: t).drop label.length) with
      | some g => pyStrip g
      | none => searchField label others t
    else searchField label others t

/-- Character class `[A-Za-z0-9\-]` of the project number value pattern. -/
def pnClass (c : Char) : Bool := c.isAlpha || c.isDigit || c = '-'

/-- Greedy class capture `([A-Za-z0-9\-]+)` followed by the boundary
lookahead. Class characters are ASCII while every label starts with a CJK
character and no class character is whitespace, so the lookahead can hold
only at the end of the maximal class run; likewise no separator
backtracking can help, because separator characters are not in the class. -/
def captureGreedyClass (others : List (List Char)) (rem : List Char) :
    Option (List Char) :=
  let run := rem.takeWhile pnClass
  if run.isEmpty then none
  else if lookaheadBoundary others (rem.drop run.length) then some run
  else none

/-- `pattern.search` for the project number field (greedy class value). -/
def searchFieldPN (label : List Char) (others : List (List Char)) :
    List Char → List Char
  | [] => []
  | c :: t =>
    if label.isPrefixOf (c :: t) then
      let rest := (c :: t).drop label.length
      let sep := rest.takeWhile sepChar
      match captureGreedyClass others (rest.drop sep.length) with
      | some g => pyStrip g
      | none => searchFieldPN label others t
    else searchFieldPN label others t

/-- The seven extracted field values of one project block. -/
structure Fields where
  project_name : List Char
  budget : List Char
  purchaser : List Char
  doc_time : List Char
  project_number : List Char
  service_period : List Char
  content : List Char
deriving DecidableEq, Repr

/-- Apply all seven field patterns to a block (`extract`, field loop). -/
def extractFields (block : List Char) : Fields where
  project_name := searchField projectNameLabel (othersOf projectNameLabel) block
  budget := searchField budgetLabel (othersOf budgetLabel) block
  purchaser := searchField purchaserLabel (othersOf purchaserLabel) block
  doc_time := searchField docTimeLabel (othersOf docTimeLabel) block
  project_number := searchFieldPN projectNumberLabel (othersOf projectNumberLabel) block
  service_period := searchField servicePeriodLabel (othersOf servicePeriodLabel) block
  content := searchField contentLabel (othersOf contentLabel) block

/-- `_validate_required_fields`: the four required fields are non-empty
after stripping, the budget contains the currency marker, and the project
name has at least five characters. -/
def validateRequiredFields (f : Fields) : Bool :=
  !(pyStrip f.project_name).isEmpty && !(pyStrip f.budget).isEmpty &&
  !(pyStrip f.purchaser).isEmpty && !(pyStrip f.doc_time).isEmpty &&
  isSubstr "元".data f.budget &&
  decide (5 ≤ f.project_name.length)

/-- Scanner for `finditer` of the block marker `(?P<index>\d+)\s*项目名称`:
`p` is the position of the current suffix in the whole text. A match
consumes the maximal digit run, the maximal whitespace run after it, and
the four label characters (no shorter runs can be followed by the label,
since the label starts with a character that is neither a digit nor a
whitespace). The scan resumes after the consumed characters, which the
`skip` counter realises one character at a time so that matches never
overlap, exactly as `finditer` reports them. -/
def scanMarks (skip p : Nat) (s : List Char) : List Nat :=
  match s with
  | [] => []
  | c :: t =>
    match skip with
    | k + 1 => scanMarks k (p + 1) t
    | 0 =>
      let d := (c :: t).takeWhile Char.isDigit
      let rest := (c :: t).drop d.length
      let w := rest.takeWhile pyIsSpace
      if !d.isEmpty && projectNameLabel.isPrefixOf (rest.drop w.length) then
        p :: scanMarks (d.length + w.length + 4 - 1) (p + 1) t
      else
        scanMarks 0 (p + 1) t

/-- Cut the text into slices at the given ascending match positions; the
final slice runs to the end of the text (`_split_projects`, block loop). -/
def sliceBlocks (t : List Char) : List Nat → List (List Char)
  | [] => []
  | [p] => [t.drop p]
  | p :: q :: rest => (t.drop p).take (q - p) :: sliceBlocks t (q :: rest)

/-- `_split_projects`: blocks begin at the marker positions; with no marker
the whole text is one block when the project name label occurs in it, and
no block otherwise. -/
def splitProjects (text : List Char) : List (List Char) :=
  let marks := scanMarks 0 0 text
  if marks.isEmpty then
    if isSubstr projectNameLabel text then [text] else []
  else sliceBlocks text marks

/-- Build the `BidInfo` for one validated block (`extract`, record build). -/
def mkBid (f : Fields) (meta : Meta) (ts : String) : BidInfo where
  id := generateId f.project_name f.purchaser
  project_name := f.project_name
  budget := f.budget
  purchaser := f.purchaser
  doc_time := f.doc_time
  project_number := f.project_number
  service_period := f.service_period
  content := f.content
  source_url := meta.url
  source_title := meta.title
  extracted_time := ts

/-- `DefaultParser.extract`: empty text yields no records; otherwise each
block is stripped, its fields extracted, invalid blocks are dropped, and a
record is built per valid block. `ts` is the ambient UTC timestamp. -/
def extract (text : List Char) (meta : Meta) (ts : String) : List BidInfo :=
  if text.isEmpty then []
  else
    (splitProjects text).filterMap (fun block =>
      let f := extractFields (pyStrip block)
      if validateRequiredFields f then some (mkBid f meta ts) else none)

end DefaultParser

namespace DaDanWang

/-- Label set of the DaDanWang parser (`self.labels`); unlike the default
parser, the joined boundary alternation includes every label, the own one
too. -/
def ddLabels : List (List Char) :=
  ["项目名称".data, "预算金额".data, "单位名称".data, "采购目标".data,
   "采购要求".data, "预计采购时间".data, "云头条声明".data]

/-- Title keywords marking an award result (`self.winning_keywords`). -/
def winningKeywords : List (List Char) :=
  ["中标".data, "成交".data, "结果".data, "赢家".data, "第一名".data, "候选人".data]

/-- Lazy capture `(.*?)` (no DOTALL) up to a stopping lookahead: zero or
more non-newline characters, extended until `stop` holds. `none` when a
newline or the end of the text is reached with `stop` never holding. -/
def lazyCapture (stop : List Char → Bool) : List Char → Option (List Char)
  | [] => if stop [] then some [] else none
  | c :: t =>
    if stop (c :: t) then some []
    else if c = '\n' then none
    else (lazyCapture stop t).map (fun g => c :: g)

/-- The lookahead `(?=LABELS|$)`: one of the labels starts here, or the
dollar anchor holds (end of text, or just before a final newline). -/
def ddStop (s : List Char) : Bool :=
  ddLabels.any (fun l => l.isPrefixOf s) || s.isEmpty || s = ['\n']

/-- Backtracking over the separator run `[:：\s]*` (greedy, so the longest
run is tried first), attempting the lazy capture after each prefix. -/
def trySeps (rest : List Char) : Nat → Option (List Char)
  | 0 => lazyCapture ddStop rest
  | k + 1 =>
    match lazyCapture ddStop (rest.drop (k + 1)) with
    | some g => some g
    | none => trySeps rest k

/-- `pattern.search` for one labeled DaDanWang field, with the captured
group stripped; the empty string doubles for a missing match, exactly as
in the source (`fields[key] = ""` on no match). -/
def ddField (label : List Char) : List Char → List Char
  | [] => []
  | c :: t =>
    if label.isPrefixOf (c :: t) then
      let rest := (c :: t).drop label.length
      match trySeps rest (rest.takeWhile DefaultParser.sepChar).length with
      | some g => pyStrip g
      | none => ddField label t
    else ddField label t

/-- Fallback `《(.*?)》`: lazy capture between the first bracket pair on a
single line. -/
def quoteSearch : List Char → Option (List Char)
  | [] => none
  | c :: t =>
    if c = '《' then
      match lazyCapture (fun s => s.headD ' ' = '》') t with
      | some g => some g
      | none => quoteSearch t
    else quoteSearch t

/-- CJK unified ideograph test for the class `[一-龥]`. -/
def isCJK (c : Char) : Bool := 0x4e00 ≤ c.toNat && c.toNat ≤ 0x9fa5

/-- Greedy backtracking of `[一-龥]+` before a fixed literal: the
largest `k` between 1 and the bound such that the literal follows the
first `k` characters. -/
def largestRun (s literal : List Char) : Nat → Option Nat
  | 0 => none
  | k + 1 =>
    if literal.isPrefixOf (s.drop (k + 1)) then some (k + 1)
    else largestRun s literal k

/-- Fallback `([一-龥]+公司|[一-龥]+局)发布`: at each
position the first alternative is tried with full backtracking, then the
second; the group captures the ideograph run together with the
organization marker. -/
def publisherSearch : List Char → Option (List Char)
  | [] => none
  | c :: t =>
    let s := c :: t
    let run := (s.takeWhile isCJK).length
    match largestRun s "公司发布".data run with
    | some k => some (s.take k ++ "公司".data)
    | none =>
      match largestRun s "局发布".data run with
      | some k => some (s.take k ++ "局".data)
      | none => publisherSearch t

/-- Fallback `，(.*?)(?=发布)`: lazy capture after the first comma up to a
lookahead of the publish marker. -/
def subjectSearch : List Char → Option (List Char)
  | [] => none
  | c :: t =>
    if c = '，' then
      match lazyCapture (fun s => "发布".data.isPrefixOf s) t with
      | some g => some g
      | none => subjectSearch t
    else subjectSearch t

/-- Fallback `预算[:：\s]*([\d\.]+\s*[万亿]?元?)`: after the label and the
greedy separator run, a mandatory run of digits and dots, then optional
whitespace and optional unit characters, all captured. A shorter separator
run can never expose a digit, so no separator backtracking arises. -/
def budgetSearch : List Char → Option (List Char)
  | [] => none
  | c :: t =>
    if "预算".data.isPrefixOf (c :: t) then
      let rest := (c :: t).drop 2
      let rem := rest.drop (rest.takeWhile DefaultParser.sepChar).length
      let digits := rem.takeWhile (fun ch => ch.isDigit || ch = '.')
      if digits.isEmpty then budgetSearch t
      else
        let rem2 := rem.drop digits.length
        let ws := rem2.takeWhile pyIsSpace
        let rem3 := rem2.drop ws.length
        let unit : List Char :=
          match rem3 with
          | [] => []
          | u :: us =>
            if u = '万' || u = '亿' then
              match us with
              | v :: _ => if v = '元' then [u, v] else [u]
              | [] => [u]
            else if u = '元' then [u] else []
        some (digits ++ ws ++ unit)
    else budgetSearch t

/-- The five labeled fields tried first by `DaDanWangParser.extract`. -/
structure DdFields where
  project_name : List Char
  budget : List Char
  purchaser : List Char
  doc_time : List Char
  content : List Char
deriving DecidableEq, Repr

/-- Labeled extraction pass over the patterns dictionary. -/
def ddFieldsOf (text : List Char) : DdFields where
  project_name := ddField "项目名称".data text
  budget := ddField "预算金额".data text
  purchaser := ddField "单位名称".data text
  doc_time := ddField "预计采购时间".data text
  content := ddField "采购目标".data text

/-- `DaDanWangParser.extract`: empty text and award-result titles yield no
records; labeled extraction with the three fallbacks fills the fields;
missing project name or budget yields no record; otherwise exactly one
record is built. `nowDate` is the ambient local date used as the doc-time
fallback and `ts` the ambient UTC timestamp. -/
def extract (text : List Char) (meta : Meta) (nowDate : List Char)
    (ts : String) : List BidInfo :=
  if text.isEmpty then []
  else if winningKeywords.any (fun kw => isSubstr kw meta.title) then []
  else
    let f0 := ddFieldsOf text
    let name :=
      if f0.project_name.isEmpty then
        match quoteSearch text with
        | some g => pyStrip g
        | none => f0.project_name
      else f0.project_name
    let purch :=
      if f0.purchaser.isEmpty then
        match publisherSearch text with
        | some g => pyStrip g
        | none =>
          match subjectSearch text with
          | some g => pyStrip g
          | none => f0.purchaser
      else f0.purchaser
    let budg :=
      if f0.budget.isEmpty then
        match budgetSearch text with
        | some g => pyStrip g
        | none => f0.budget
      else f0.budget
    if name.isEmpty || budg.isEmpty then []
    else
      [{ id := generateId name purch
         project_name := name
         budget := budg
         purchaser := purch
         doc_time := if f0.doc_time.isEmpty then nowDate else f0.doc_time
         project_number := []
         service_period := []
         content := f0.content
         source_url := meta.url
         source_title := meta.title
         extracted_time := ts }]

end DaDanWang

namespace DataManager

/-- A persisted bid dictionary. The `id` string doubles for a missing key
(`bid.get("id")` is falsy exactly when the key is missing or empty); the
keys touched by `_with_defaults` are optional, all remaining payload is
kept opaque. -/
structure BidDict where
  id : String
  status : Option String
  extracted_time : Option String
  payload : String
deriving DecidableEq, Repr

/-- `_with_defaults`: `setdefault` of the status and the extraction
timestamp (`now` is the ambient UTC timestamp). -/
def withDefaults (now : String) (b : BidDict) : BidDict :=
  { b with status := some (b.status.getD "new")
           extracted_time := some (b.extracted_time.getD now) }

/-- Set of already stored non-empty ids
(`{bid.get("id") for bid in existing_bids if bid.get("id")}`), as a list
with membership as the set semantics; elements are appended in store
order so the set stays literally in sync with the stored list. -/
def existingIds (stored : List BidDict) : List String :=
  (stored.filter (fun b => b.id ≠ "")).map (fun b => b.id)

/-- Loop body of `save_bids` over the incoming records: skip records with
a falsy or already known id, append the rest with defaults applied,
recording them in the set and in the newly-saved accumulator. -/
def saveBidsGo (now : String) :
    List BidDict → List BidDict → List String → List BidDict →
    List BidDict × List String × List BidDict
  | [], stored, ids, news => (stored, ids, news)
  | b :: rest, stored, ids, news =>
    if b.id = "" ∨ b.id ∈ ids then saveBidsGo now rest stored ids news
    else
      let rec1 := withDefaults now b
      saveBidsGo now rest (stored ++ [rec1]) (ids ++ [b.id]) (news ++ [rec1])

/-- `save_bids` (file mode): returns the updated store and the newly added
records. The JSON write itself is the identity on this model (it persists
the same list it was handed). -/
def saveBids (now : String) (stored : List BidDict) (bids : List BidDict) :
    List BidDict × List BidDict :=
  let r := saveBidsGo now bids stored (existingIds stored) []
  (r.1, r.2.2)

/-- A persisted article row (`save_article`, record dict). -/
structure ArticleRow where
  url : String
  title : String
  author : String
  publish_time : String
  digest : String
  crawled_time : String
  has_bid_info : Bool
  bid_count : Nat
deriving DecidableEq, Repr

/-- Incoming article data (`article_data.get(...)` with defaults). -/
structure ArticleData where
  url : String
  title : String
  author : String
  publish_time : String
  digest : String
  has_bid_info : Bool
  bid_count : Nat
deriving DecidableEq, Repr

/-- `is_article_crawled`: false on a falsy URL, else an exact, untrimmed
comparison against the stored rows. -/
def isArticleCrawled (stored : List ArticleRow) (url : String) : Bool :=
  if url = "" then false
  else stored.any (fun row => row.url = url)

/-- `save_article` (file mode): the URL is trimmed; a falsy trimmed URL or
an already stored equal URL saves nothing and returns false; otherwise the
row is appended (`now` is the ambient timestamp; the JSON write succeeds
on this model). -/
def saveArticle (now : String) (stored : List ArticleRow) (a : ArticleData) :
    List ArticleRow × Bool :=
  let url := pyStripS a.url
  if url = "" then (stored, false)
  else if stored.any (fun row => row.url = url) then (stored, false)
  else
    (stored ++ [{ url := url, title := a.title, author := a.author,
                  publish_time := a.publish_time, digest := a.digest,
                  crawled_time := now, has_bid_info := a.has_bid_info,
                  bid_count := a.bid_count }], true)

end DataManager

namespace Controller

/-- The shared crawl status dictionary (`CrawlController.status`). -/
structure Status where
  is_running : Bool
  progress : Nat
  total : Nat
  message : String
  last_error : Option String
deriving DecidableEq, Repr

/-- Initial status installed by the controller constructor. -/
def initialStatus : Status :=
  { is_running := false, progress := 0, total := 0, message := "等待任务",
    last_error := none }

/-- `CrawlController.start`, the part executed synchronously under the
lock: a running status is left untouched and the call reports false;
otherwise the gate is taken, the progress fields and the last error are
reset, and the call reports true (the crawl task itself runs later on the
executor). -/
def start (st : Status) : Bool × Status :=
  if st.is_running then (false, st)
  else
    (true, { st with is_running := true, progress := 0, total := 0,
                     message := "爬取任务初始化...", last_error := none })

/-- Behaviour of one background crawl task body: `runner.run` either
completes, leaving the status it produced through its updates, or raises,
leaving the status reached so far together with the exception text. -/
def RunnerBehaviour : Type := Status → Status ⊕ (Status × String)

/-- The `task` closure spawned by `start`: run the runner; on an exception
record the failure message and the error text; in the `finally` block
always clear the gate. -/
def runTask (behaviour : RunnerBehaviour) (st : Status) : Status :=
  match behaviour st with
  | .inl st1 => { st1 with is_running := false }
  | .inr (st1, exc) =>
    { st1 with message := "爬取失败: " ++ exc, last_error := some exc,
               is_running := false }

end Controller

namespace Fetcher

/-- One entry of the upstream `app_msg_list`. The creation timestamp only
feeds the human-readable publish date, which is immaterial to every claim
about the pagination loop and is therefore not modelled. -/
structure PageItem where
  title : String
  link : String
  digest : String
deriving DecidableEq, Repr

/-- A normalized article produced by `_normalize_article`. -/
structure FetchedArticle where
  title : String
  url : String
  digest : String
deriving DecidableEq, Repr

/-- Keyword filter `_match_keywords`: vacuously true without keywords, all
keywords as substrings of the title under AND, any keyword under OR. -/
def matchKeywords (keywords : List String) (andLogic : Bool)
    (title : String) : Bool :=
  if keywords.isEmpty then true
  else if andLogic then keywords.all (fun k => isSubstrS k title)
  else keywords.any (fun k => isSubstrS k title)

/-- `_normalize_article`: drop items without a link, trim the fields. -/
def normalizeArticle (it : PageItem) : Option FetchedArticle :=
  let url := pyStripS it.link
  if url = "" then none
  else some { title := pyStripS it.title, url := url,
              digest := pyStripS it.digest }

/-- Inner `for item in items` loop: filter by keyword, normalize, append,
and break as soon as the article cap is reached. -/
def collectItems (keywords : List String) (andLogic : Bool) (limit : Nat) :
    List FetchedArticle → List PageItem → List FetchedArticle
  | arts, [] => arts
  | arts, it :: rest =>
    if limit ≤ arts.length then arts
    else if !matchKeywords keywords andLogic it.title then
      collectItems keywords andLogic limit arts rest
    else match normalizeArticle it with
      | none => collectItems keywords andLogic limit arts rest
      | some a =>
        let arts1 := arts ++ [a]
        if limit ≤ arts1.length then arts1
        else collectItems keywords andLogic limit arts1 rest

/-- The pagination `while` loop of `fetch_article_list`. `env` maps a
begin offset to the retried page outcome of `_request_with_retry` (`none`
for an exhausted retry budget). The returned trace lists every offset
actually requested, and the flag records that the loop halted by itself
rather than by fuel exhaustion (the Python loop has no fuel; fuel only
makes the model total). -/
def fetchLoop (env : Nat → Option (List PageItem)) (keywords : List String)
    (andLogic : Bool) (limit pageSize : Nat) :
    Nat → List FetchedArticle → Nat → List Nat →
    List FetchedArticle × List Nat × Bool
  | 0, arts, _, trace => (arts, trace, false)
  | fuel + 1, arts, begin_, trace =>
    if limit ≤ arts.length then (arts, trace, true)
    else
      let trace1 := trace ++ [begin_]
      match env begin_ with
      | none => (arts, trace1, true)
      | some items =>
        if items.isEmpty then (arts, trace1, true)
        else
          fetchLoop env keywords andLogic limit pageSize fuel
            (collectItems keywords andLogic limit arts items)
            (begin_ + pageSize) trace1

/-- `fetch_article_list`: nothing without a positive limit or without
credentials; otherwise run the pagination loop from offset zero and cut
the result to the limit. -/
def fetchArticleList (env : Nat → Option (List PageItem))
    (keywords : List String) (andLogic : Bool) (limit pageSize : Nat)
    (hasCredentials : Bool) (fuel : Nat) :
    List FetchedArticle × List Nat × Bool :=
  if limit = 0 || !hasCredentials then ([], [], true)
  else
    let r := fetchLoop env keywords andLogic limit pageSize fuel [] 0 []
    (r.1.take limit, r.2.1, r.2.2)

end Fetcher

namespace Cron

/-- Python `str.split()` with no argument: split on whitespace runs,
dropping empty pieces; `acc` holds the current word reversed. -/
def splitWsAux : List Char → List Char → List (List Char)
  | [], acc => if acc.isEmpty then [] else [acc.reverse]
  | c :: t, acc =>
    if pyIsSpace c then
      if acc.isEmpty then splitWsAux t [] else acc.reverse :: splitWsAux t []
    else splitWsAux t (c :: acc)

/-- Python `s.split(sep, 1)` when the separator occurs: the pieces before
and after its first occurrence, `none` when it does not occur (which the
source checks first with `in`). -/
def splitOnce (sep : Char) : List Char → Option (List Char × List Char)
  | [] => none
  | c :: t =>
    if c = sep then some ([], t)
    else (splitOnce sep t).map (fun r => (c :: r.1, r.2))

/-- Python `s.split(sep)`: all pieces, empties included. -/
def splitAllAux (sep : Char) : List Char → List Char → List (List Char)
  | [], acc => [acc.reverse]
  | c :: t, acc =>
    if c = sep then acc.reverse :: splitAllAux sep t []
    else splitAllAux sep t (c :: acc)

/-- Digits of a plain decimal literal, `none` on anything else. -/
def digitsToNat (s : List Char) : Option Nat :=
  if s.isEmpty || !s.all Char.isDigit then none
  else some (s.foldl (fun acc c => acc * 10 + (c.toNat - 48)) 0)

/-- Python `int(s)` for the plain integer literals that occur in cron
fields (optional minus sign and digits); `none` models `ValueError`. -/
def pyInt (s : List Char) : Option Int :=
  match s with
  | '-' :: rest => (digitsToNat rest).map (fun n => -(n : Int))
  | _ => (digitsToNat s).map (fun n => (n : Int))

/-- Python `range(start, e + 1, step)` as a list, for a positive step. -/
def rangeStep (start e : Int) (step : Nat) : List Int :=
  if e < start then []
  else (List.range (((e - start) / step).toNat + 1)).map
    (fun i => start + i * step)

/-- `SimpleCron._expand_part`: optional `/step` suffix (clamped to at
least one), then a `*`, a `lo-hi` range or a single number, clamped into
`[minValue, maxValue]` and expanded with the step; with
`allow_sunday_seven`, a 7 in the result is replaced by 0. -/
def expandPart (part : List Char) (minValue maxValue : Int)
    (allowSundaySeven : Bool) : Option (List Int) := do
  let (base, step) ←
    match splitOnce '/' part with
    | some (b, s) => do
        let n ← pyInt s
        pure (b, (max 1 n).toNat)
    | none => some (part, 1)
  let (start, stop) ←
    if base = "*".data then some (minValue, maxValue)
    else match splitOnce '-' base with
      | some (lo, hi) => do
          let l ← pyInt lo
          let h ← pyInt hi
          pure (l, h)
      | none => do
          let n ← pyInt base
          pure (n, n)
  let values := rangeStep (max minValue start) (min maxValue stop) step
  if allowSundaySeven && 7 ∈ values then
    pure (values.filter (fun v => v ≠ 7) ++ [0])
  else
    pure values

/-- `SimpleCron._parse_field`: a blank or `*` field is the wildcard
(`none`); otherwise the comma pieces are stripped, empties skipped, and
their expansions united; an empty union collapses back to the wildcard.
The outer `Option` models the `ValueError` of a malformed number. -/
def parseField (field : List Char) (minValue maxValue : Int)
    (allowSundaySeven : Bool) : Option (Option (List Int)) :=
  let f := pyStrip field
  if f.isEmpty || f = "*".data then some none
  else do
    let values ← (splitAllAux ',' f []).foldlM
      (fun acc part =>
        let p := pyStrip part
        if p.isEmpty then pure acc
        else do
          let v ← expandPart p minValue maxValue allowSundaySeven
          pure (acc ++ v))
      ([] : List Int)
    if values.isEmpty then pure none else pure (some values)

/-- Parsed five-field cron expression (`SimpleCron.__init__`). -/
structure CronExpr where
  minutes : Option (List Int)
  hours : Option (List Int)
  days : Option (List Int)
  months : Option (List Int)
  weekdays : Option (List Int)
deriving DecidableEq, Repr

/-- `SimpleCron(expr)`: `none` models the `ValueError` raised on a field
count other than five or on a malformed field. -/
def mkSimpleCron (expr : String) : Option CronExpr :=
  match (splitWsAux expr.data []).map (fun l => (⟨l⟩ : String)) with
  | [p0, p1, p2, p3, p4] => do
    let m ← parseField p0.data 0 59 false
    let h ← parseField p1.data 0 23 false
    let d ← parseField p2.data 1 31 false
    let mo ← parseField p3.data 1 12 false
    let w ← parseField p4.data 0 6 true
    pure ⟨m, h, d, mo, w⟩
  | _ => none

/-- Instants are naive minutes since the epoch 1970-01-01 00:00. Civil
date from the day number (standard era-based conversion), giving
`(year, month, day)`. -/
def civilFromDays (days : Nat) : Nat × Nat × Nat :=
  let z := days + 719468
  let era := z / 146097
  let doe := z % 146097
  let yoe := (doe - doe / 1460 + doe / 36524 - doe / 146096) / 365
  let doy := doe - (365 * yoe + yoe / 4 - yoe / 100)
  let mp := (5 * doy + 2) / 153
  let d := doy - (153 * mp + 2) / 5 + 1
  let m := if mp < 10 then mp + 3 else mp - 9
  (yoe + era * 400 + (if m ≤ 2 then 1 else 0), m, d)

/-- Fields of the wall-clock datetime at a minute instant. Python
`weekday()` counts Monday as 0; the epoch day was a Thursday. -/
def minuteOf (t : Nat) : Nat := t % 60
def hourOf (t : Nat) : Nat := t / 60 % 24
def dayOf (t : Nat) : Nat := (civilFromDays (t / 1440)).2.2
def monthOf (t : Nat) : Nat := (civilFromDays (t / 1440)).2.1
def weekdayOf (t : Nat) : Nat := (t / 1440 + 3) % 7

/-- `SimpleCron._match` at a minute instant. -/
def matchAt (c : CronExpr) (t : Nat) : Bool :=
  (match c.minutes with
   | none => true | some l => decide ((minuteOf t : Int) ∈ l)) &&
  (match c.hours with
   | none => true | some l => decide ((hourOf t : Int) ∈ l)) &&
  (match c.days with
   | none => true | some l => decide ((dayOf t : Int) ∈ l)) &&
  (match c.months with
   | none => true | some l => decide ((monthOf t : Int) ∈ l)) &&
  (match c.weekdays with
   | none => true | some l => decide ((weekdayOf t : Int) ∈ l))

/-- Minute-by-minute search loop of `next_after`. -/
def nextAfterAux (c : CronExpr) : Nat → Nat → Option Nat
  | 0, _ => none
  | fuel + 1, cand => if matchAt c cand then some cand
                      else nextAfterAux c fuel (cand + 1)

/-- `SimpleCron.next_after`: the candidate starts at the instant truncated
to the minute plus one minute, and the scan is capped at one year of
minutes; `none` models the `ValueError` after an exhausted scan. -/
def nextAfter (c : CronExpr) (nowMinutes : Nat) : Option Nat :=
  nextAfterAux c 525600 (nowMinutes + 1)

/-- Parsing and evaluation composed, as the scheduler uses `SimpleCron`. -/
def nextAfterExpr (expr : String) (nowMinutes : Nat) : Option Nat :=
  (mkSimpleCron expr).bind (fun c => nextAfter c nowMinutes)

end Cron

namespace DefaultParser

/-- Position-level marker condition: the pattern `\d+\s*项目名称` matches at
position `p` of `t` (a non-empty digit run, then a whitespace run, then the
label; no shorter runs can be followed by the label because its first
character is neither a digit nor whitespace). -/
def markCond (t : List Char) (p : Nat) : Bool :=
  let s := t.drop p
  let d := s.takeWhile Char.isDigit
  let rest := s.drop d.length
  let w := rest.takeWhile pyIsSpace
  !d.isEmpty && projectNameLabel.isPrefixOf (rest.drop w.length)

/-- The position begins a digit run (it is not preceded by a digit). -/
def runStart (t : List Char) (p : Nat) : Bool :=
  decide (p = 0) || !(t.getD (p - 1) ' ').isDigit

/-- Modelled from the spec, amended reading: a block begins wherever a run
of digits is followed, possibly after whitespace, by the project name
label. -/
def isMark (t : List Char) (p : Nat) : Bool := markCond t p && runStart t p

/-- Modelled from the spec, strict reading of the claim: a block begins
exactly where a run of digits is immediately followed by the label, with
no intervening characters. -/
def isMarkStrict (t : List Char) (p : Nat) : Bool :=
  let s := t.drop p
  let d := s.takeWhile Char.isDigit
  (!d.isEmpty && projectNameLabel.isPrefixOf (s.drop d.length)) && runStart t p

/-- Modelled from the spec, amended reading of the splitting contract:
blocks begin at the marker positions, text before the first marker is
discarded, a marker-free text with the label is one block, and a text
without the label has none. -/
def specSplit (t : List Char) : List (List Char) :=
  let marks := (List.range t.length).filter (isMark t)
  if marks.isEmpty then
    if isSubstr projectNameLabel t then [t] else []
  else sliceBlocks t marks

/-- Modelled from the spec, strict reading of the claim (markers only where
the digits touch the label directly). -/
def specSplitStrict (t : List Char) : List (List Char) :=
  let marks := (List.range t.length).filter (isMarkStrict t)
  if marks.isEmpty then
    if isSubstr projectNameLabel t then [t] else []
  else sliceBlocks t marks

/-- Records contributed by a single block of the extract loop: one record
when the block validates, none otherwise. -/
def recordsOfBlock (meta : Meta) (ts : String) (block : List Char) :
    List BidInfo :=
  let f := extractFields (pyStrip block)
  if validateRequiredFields f then [mkBid f meta ts] else []

end DefaultParser

namespace Fetcher

/-- Upstream environment for the short-page scenario: offset 0 serves one
matching item (fewer than the page size of two), offset 2 serves another,
offset 4 fails. -/
def envShortPage : Nat → Option (List PageItem) := fun b =>
  if b = 0 then some [{ title := "招标A", link := "http://a", digest := "" }]
  else if b = 2 then some [{ title := "招标B", link := "http://b", digest := "" }]
  else none

end Fetcher

/-! Helper lemmas about the save-bids loop, shared by the claim theorems. -/

namespace DataManager

theorem saveBidsGo_ids_mono (now : String) (bids : List BidDict) :
    ∀ stored ids news x, x ∈ ids → x ∈ (saveBidsGo now bids stored ids news).2.1 := by
  induction bids with
  | nil => intro stored ids news x hx; simpa [saveBidsGo] using hx
  | cons b rest ih =>
    intro stored ids news x hx
    by_cases hb : b.id = "" ∨ b.id ∈ ids
    · simpa only [saveBidsGo, if_pos hb] using ih _ _ _ x hx
    · simpa only [saveBidsGo, if_neg hb] using
        ih _ _ _ x (List.mem_append_left _ hx)

theorem saveBidsGo_covers (now : String) (bids : List BidDict) :
    ∀ stored ids news b, b ∈ bids → b.id ≠ "" →
      b.id ∈ (saveBidsGo now bids stored ids news).2.1 := by
  induction bids with
  | nil => intro stored ids news b hb; cases hb
  | cons b0 rest ih =>
    intro stored ids news b hb hid
    by_cases hc : b0.id = "" ∨ b0.id ∈ ids
    · rcases List.mem_cons.mp hb with rfl | hb2
      · rcases hc with hc | hc
        · exact absurd hc hid
        · simpa only [saveBidsGo, if_pos (Or.inr hc)] using
            saveBidsGo_ids_mono now rest _ _ _ _ hc
      · simpa only [saveBidsGo, if_pos hc] using ih _ _ _ b hb2 hid
    · rcases List.mem_cons.mp hb with rfl | hb2
      · simpa only [saveBidsGo, if_neg hc] using
          saveBidsGo_ids_mono now rest _ _ _ _
            (List.mem_append_right _ (List.mem_singleton.mpr rfl))
      · simpa only [saveBidsGo, if_neg hc] using ih _ _ _ b hb2 hid

theorem saveBidsGo_noop (now : String) (bids : List BidDict) :
    ∀ stored ids news, (∀ b ∈ bids, b.id = "" ∨ b.id ∈ ids) →
      saveBidsGo now bids stored ids news = (stored, ids, news) := by
  induction bids with
  | nil => intro stored ids news _; rfl
  | cons b rest ih =>
    intro stored ids news hall
    have hb := hall b (List.mem_cons_self b rest)
    rw [saveBidsGo, if_pos hb]
    exact ih _ _ _ (fun x hx => hall x (List.mem_cons_of_mem b hx))

theorem existingIds_append_one (stored : List BidDict) (r : BidDict)
    (h : r.id ≠ "") : existingIds (stored ++ [r]) = existingIds stored ++ [r.id] := by
  simp [existingIds, List.filter_append, h]

theorem saveBidsGo_sync (now : String) (bids : List BidDict) :
    ∀ stored ids news, ids = existingIds stored →
      (saveBidsGo now bids stored ids news).2.1 =
        existingIds (saveBidsGo now bids stored ids news).1 := by
  induction bids with
  | nil => intro stored ids news h; simpa [saveBidsGo] using h
  | cons b rest ih =>
    intro stored ids news h
    by_cases hb : b.id = "" ∨ b.id ∈ ids
    · simp only [saveBidsGo, if_pos hb]; exact ih _ _ _ h
    · simp only [saveBidsGo, if_neg hb]
      push_neg at hb
      refine ih _ _ _ ?_
      rw [h, existingIds_append_one stored (withDefaults now b) hb.1]
      rfl

theorem saveBidsGo_ids_nodup (now : String) (bids : List BidDict) :
    ∀ stored ids news, ids.Nodup →
      (saveBidsGo now bids stored ids news).2.1.Nodup := by
  induction bids with
  | nil => intro stored ids news h; simpa [saveBidsGo] using h
  | cons b rest ih =>
    intro stored ids news h
    by_cases hb : b.id = "" ∨ b.id ∈ ids
    · simp only [saveBidsGo, if_pos hb]; exact ih _ _ _ h
    · simp only [saveBidsGo, if_neg hb]
      push_neg at hb
      refine ih _ _ _ ?_
      simp [List.nodup_append, h, hb.2]

end DataManager

/-- C1: when a run is in flight, `start` reports false and leaves the
status untouched; otherwise it takes the gate, resets progress, total and
the last error, and reports true; hence two immediate calls report true
then false with the gate raised throughout the overlap. -/
theorem C1_start_gate (st : Controller.Status) :
    (st.is_running = true → Controller.start st = (false, st)) ∧
    (st.is_running = false →
      Controller.start st =
        (true, { st with is_running := true, progress := 0, total := 0,
                         message := "爬取任务初始化...", last_error := none }) ∧
      (Controller.start st).2.is_running = true ∧
      (Controller.start (Controller.start st).2).1 = false ∧
      (Controller.start (Controller.start st).2).2 = (Controller.start st).2) := by
  refine ⟨fun h => ?_, fun h => ?_⟩
  · simp [Controller.start, h]
  · simp [Controller.start, h]

/-- Witness for C1 at the initial controller status. -/
theorem C1_start_gate_witness :
    Controller.start Controller.initialStatus =
      (true, { Controller.initialStatus with
                 is_running := true, progress := 0,
                 total := 0, message := "爬取任务初始化...",
                 last_error := none }) ∧
    (Controller.start Controller.initialStatus).2.is_running = true ∧
    (Controller.start (Controller.start Controller.initialStatus).2).1 = false ∧
    (Controller.start (Controller.start Controller.initialStatus).2).2 =
      (Controller.start Controller.initialStatus).2 :=
  (C1_start_gate Controller.initialStatus).2 rfl

/-- C2: every spawned task clears the gate when it finishes, whether the
runner completed or raised, so a later `start` succeeds again; on an
exception its text lands in the last error and in the status message. -/
theorem C2_task_clears_gate (b : Controller.RunnerBehaviour)
    (st : Controller.Status) :
    (Controller.runTask b st).is_running = false ∧
    (Controller.start (Controller.runTask b st)).1 = true ∧
    (∀ st1 exc, b st = Sum.inr (st1, exc) →
      (Controller.runTask b st).last_error = some exc ∧
      (Controller.runTask b st).message = "爬取失败: " ++ exc) := by
  cases hb : b st with
  | inl s1 => simp [Controller.runTask, Controller.start, hb]
  | inr pe =>
    obtain ⟨s1, e⟩ := pe
    refine ⟨?_, ?_, ?_⟩
    · simp [Controller.runTask, hb]
    · simp [Controller.runTask, Controller.start, hb]
    · intro st1 exc h
      obtain ⟨rfl, rfl⟩ : s1 = st1 ∧ e = exc := by
        simpa using h
      simp [Controller.runTask, hb]

/-- Witness for C2 with a runner that raises at once. -/
theorem C2_task_clears_gate_witness :
    (Controller.runTask (fun _ => Sum.inr (Controller.initialStatus, "boom"))
        Controller.initialStatus).is_running = false ∧
    (Controller.start (Controller.runTask
        (fun _ => Sum.inr (Controller.initialStatus, "boom"))
        Controller.initialStatus)).1 = true ∧
    (Controller.runTask (fun _ => Sum.inr (Controller.initialStatus, "boom"))
        Controller.initialStatus).last_error = some "boom" ∧
    (Controller.runTask (fun _ => Sum.inr (Controller.initialStatus, "boom"))
        Controller.initialStatus).message = "爬取失败: " ++ "boom" := by
  have h := C2_task_clears_gate
    (fun _ => Sum.inr (Controller.initialStatus, "boom")) Controller.initialStatus
  exact ⟨h.1, h.2.1, (h.2.2 Controller.initialStatus "boom" rfl).1,
         (h.2.2 Controller.initialStatus "boom" rfl).2⟩

/-- C6: saving the same record set a second time yields no newly saved
records and leaves the store unchanged, and the store never accumulates a
duplicate non-empty id. -/
theorem C6_save_bids_idempotent (now now2 : String)
    (stored bids : List DataManager.BidDict) :
    DataManager.saveBids now2 (DataManager.saveBids now stored bids).1 bids =
      ((DataManager.saveBids now stored bids).1, []) ∧
    ((DataManager.existingIds stored).Nodup →
      (DataManager.existingIds (DataManager.saveBids now stored bids).1).Nodup) := by
  have hsync := DataManager.saveBidsGo_sync now bids stored
    (DataManager.existingIds stored) [] rfl
  constructor
  · have hno : ∀ b ∈ bids, b.id = "" ∨ b.id ∈ DataManager.existingIds
        (DataManager.saveBidsGo now bids stored
          (DataManager.existingIds stored) []).1 := by
      intro b hb
      by_cases hid : b.id = ""
      · exact Or.inl hid
      · refine Or.inr ?_
        rw [← hsync]
        exact DataManager.saveBidsGo_covers now bids stored _ [] b hb hid
    have hstop := DataManager.saveBidsGo_noop now2 bids
      (DataManager.saveBidsGo now bids stored (DataManager.existingIds stored) []).1
      (DataManager.existingIds (DataManager.saveBidsGo now bids stored
        (DataManager.existingIds stored) []).1) [] hno
    simp [DataManager.saveBids, hstop]
  · intro h
    rw [DataManager.saveBids, ← hsync]
    exact DataManager.saveBidsGo_ids_nodup now bids stored _ [] h

/-- Witness for C6 on a singleton record set over the empty store. -/
theorem C6_save_bids_idempotent_witness :
    DataManager.saveBids "t2" (DataManager.saveBids "t1" []
        [{ id := "a", status := none, extracted_time := none, payload := "p" }]).1
        [{ id := "a", status := none, extracted_time := none, payload := "p" }] =
      ((DataManager.saveBids "t1" []
        [{ id := "a", status := none, extracted_time := none, payload := "p" }]).1, []) ∧
    (DataManager.existingIds (DataManager.saveBids "t1" []
        [{ id := "a", status := none, extracted_time := none, payload := "p" }]).1).Nodup := by
  have h := C6_save_bids_idempotent "t1" "t2" []
    [{ id := "a", status := none, extracted_time := none, payload := "p" }]
  exact ⟨h.1, h.2 (by decide)⟩

/-! Helper lemmas about the default parser extract pipeline. -/

namespace DefaultParser

theorem extract_eq_flatten (text : List Char) (meta : Meta) (ts : String) :
    extract text meta ts =
      ((splitProjects text).map (recordsOfBlock meta ts)).flatten := by
  rw [extract]
  split
  · next h =>
    rw [List.isEmpty_iff.mp h]
    rfl
  · induction splitProjects text with
    | nil => rfl
    | cons b rest ih =>
      rw [List.filterMap_cons, List.map_cons, List.flatten_cons, recordsOfBlock]
      by_cases hv : validateRequiredFields (extractFields (pyStrip b)) = true
      · simp only [hv, if_true, reduceIte]
        rw [List.cons_append, List.nil_append, ih]
      · simp only [Bool.not_eq_true] at hv
        simp only [hv, Bool.false_eq_true, if_false, reduceIte]
        rw [List.nil_append, ih]

theorem recordsOfBlock_of_invalid (meta : Meta) (ts : String) (block : List Char)
    (h : validateRequiredFields (extractFields (pyStrip block)) = false) :
    recordsOfBlock meta ts block = [] := by
  rw [recordsOfBlock]
  simp [h]

theorem flatten_singleton_length {α β : Type} (g : α → List β) (l : List α)
    (h : ∀ b ∈ l, (g b).length = 1) : ((l.map g).flatten).length = l.length := by
  induction l with
  | nil => rfl
  | cons b rest ih =>
    rw [List.map_cons, List.flatten_cons, List.length_append,
        h b (List.mem_cons_self b rest), ih (fun x hx => h x (List.mem_cons_of_mem b hx))]
    rw [List.length_cons]
    omega

end DefaultParser

/-- C3 counterexample: a text of two well-formed, distinctly labeled
blocks that carry identical project name and purchaser passes validation
in both blocks and produces two records, but their ids coincide (the id is
a hash of project name and purchaser only), refuting the pairwise
distinctness of the ids. -/
theorem C3_counterexample :
    (∀ b ∈ DefaultParser.splitProjects
        ("1项目名称：示例项目甲预算金额：100元采购人：某单位获取采购文件：即日2项目名称：示例项目甲预算金额：100元采购人：某单位获取采购文件：即日").data,
      DefaultParser.validateRequiredFields
        (DefaultParser.extractFields (pyStrip b)) = true) ∧
    (DefaultParser.extract
        ("1项目名称：示例项目甲预算金额：100元采购人：某单位获取采购文件：即日2项目名称：示例项目甲预算金额：100元采购人：某单位获取采购文件：即日").data
        ⟨[], []⟩ "ts").length = 2 ∧
    ¬ ((DefaultParser.extract
        ("1项目名称：示例项目甲预算金额：100元采购人：某单位获取采购文件：即日2项目名称：示例项目甲预算金额：100元采购人：某单位获取采购文件：即日").data
        ⟨[], []⟩ "ts").map (fun r => r.id)).Nodup := by
  decide

/-- C3 (amended): over every text whose blocks all validate, extract
returns exactly one record per block, and every id is the deterministic
hash of the record project name and purchaser — so ids are distinct
exactly insofar as those hashes differ, and blocks with identical name and
purchaser collide by design. -/
theorem C3_extract_count (text : List Char) (meta : Meta) (ts : String)
    (hall : ∀ b ∈ DefaultParser.splitProjects text,
      DefaultParser.validateRequiredFields
        (DefaultParser.extractFields (pyStrip b)) = true) :
    (DefaultParser.extract text meta ts).length =
      (DefaultParser.splitProjects text).length ∧
    ∀ r ∈ DefaultParser.extract text meta ts,
      r.id = generateId r.project_name r.purchaser := by
  constructor
  · rw [DefaultParser.extract_eq_flatten]
    refine DefaultParser.flatten_singleton_length _ _ ?_
    intro b hb
    rw [DefaultParser.recordsOfBlock]
    simp [hall b hb]
  · intro r hr
    rw [DefaultParser.extract_eq_flatten] at hr
    obtain ⟨l, hl, hrl⟩ := List.mem_flatten.mp hr
    obtain ⟨b, _, rfl⟩ := List.mem_map.mp hl
    rw [DefaultParser.recordsOfBlock] at hrl
    split at hrl
    · rw [List.mem_singleton.mp hrl]
      rfl
    · cases hrl

/-- Witness for C3 on a two-block text with distinct project names. -/
theorem C3_extract_count_witness :
    (∀ b ∈ DefaultParser.splitProjects
        ("1项目名称：示例项目甲预算金额：100元采购人：某单位获取采购文件：即日2项目名称：示例项目乙预算金额：90元采购人：另单位获取采购文件：即日").data,
      DefaultParser.validateRequiredFields
        (DefaultParser.extractFields (pyStrip b)) = true) ∧
    (DefaultParser.extract
        ("1项目名称：示例项目甲预算金额：100元采购人：某单位获取采购文件：即日2项目名称：示例项目乙预算金额：90元采购人：另单位获取采购文件：即日").data
        ⟨[], []⟩ "ts").length =
      (DefaultParser.splitProjects
        ("1项目名称：示例项目甲预算金额：100元采购人：某单位获取采购文件：即日2项目名称：示例项目乙预算金额：90元采购人：另单位获取采购文件：即日").data).length := by
  refine ⟨by decide, ?_⟩
  exact (C3_extract_count _ ⟨[], []⟩ "ts" (by decide)).1

/-- C4: the extract pipeline is the concatenation of independent per-block
results; a block validates exactly when the four required fields are
non-empty after trimming, the budget contains the currency marker and the
project name has at least five characters; an invalid block contributes
nothing; and the scenario text missing purchaser and document window
yields an empty result. -/
theorem C4_required_fields (text : List Char) (meta : Meta) (ts : String) :
    DefaultParser.extract text meta ts =
      ((DefaultParser.splitProjects text).map
        (DefaultParser.recordsOfBlock meta ts)).flatten ∧
    (∀ f : DefaultParser.Fields,
      DefaultParser.validateRequiredFields f = true ↔
        (pyStrip f.project_name ≠ [] ∧ pyStrip f.budget ≠ [] ∧
         pyStrip f.purchaser ≠ [] ∧ pyStrip f.doc_time ≠ [] ∧
         isSubstr "元".data f.budget = true ∧ 5 ≤ f.project_name.length)) ∧
    (∀ block, DefaultParser.validateRequiredFields
        (DefaultParser.extractFields (pyStrip block)) = false →
      DefaultParser.recordsOfBlock meta ts block = []) ∧
    DefaultParser.extract "1项目名称：示例项目预算金额：10万元".data
      ⟨[], []⟩ "" = [] := by
  refine ⟨DefaultParser.extract_eq_flatten text meta ts, ?_, ?_, by decide⟩
  · intro f
    rw [DefaultParser.validateRequiredFields]
    simp [List.isEmpty_iff, and_assoc]
  · intro block h
    exact DefaultParser.recordsOfBlock_of_invalid meta ts block h

/-- Witness for C4: the validity characterization evaluated on the fields
of the scenario block (invalid: missing purchaser and document window). -/
theorem C4_required_fields_witness :
    DefaultParser.validateRequiredFields
      (DefaultParser.extractFields
        (pyStrip "1项目名称：示例项目预算金额：10万元".data)) = false ∧
    DefaultParser.recordsOfBlock ⟨[], []⟩ ""
      "1项目名称：示例项目预算金额：10万元".data = [] := by
  refine ⟨by decide, ?_⟩
  exact (C4_required_fields [] ⟨[], []⟩ "").2.2.1
    "1项目名称：示例项目预算金额：10万元".data (by decide)

theorem length_ite_nil_singleton {c : Prop} [Decidable c] {α : Type} (x : α) :
    (if c then ([] : List α) else [x]).length ≤ 1 := by
  split <;> simp

/-- C10: the DaDanWang parser never splits a text into several blocks: it
returns at most one record for every input, and none at all when the title
carries award-result vocabulary. -/
theorem C10_dadanwang_single (text : List Char) (meta : Meta)
    (nowDate : List Char) (ts : String) :
    (DaDanWang.extract text meta nowDate ts).length ≤ 1 ∧
    (∀ kw ∈ DaDanWang.winningKeywords, isSubstr kw meta.title = true →
      DaDanWang.extract text meta nowDate ts = []) := by
  constructor
  · rw [DaDanWang.extract]
    repeat' split
    all_goals first
      | exact length_ite_nil_singleton _
      | simp
  · intro kw hkw hsub
    have hwin : (DaDanWang.winningKeywords.any
        fun kw => isSubstr kw meta.title) = true :=
      List.any_eq_true.mpr ⟨kw, hkw, hsub⟩
    rw [DaDanWang.extract]
    by_cases he : text.isEmpty <;> simp [he, hwin]

/-- Witness for C10 on an award-result title. -/
theorem C10_dadanwang_single_witness :
    (DaDanWang.extract "预算 5 元《工程》".data ⟨[], "中标公告".data⟩
      "d".data "ts").length ≤ 1 ∧
    DaDanWang.extract "预算 5 元《工程》".data ⟨[], "中标公告".data⟩
      "d".data "ts" = [] := by
  have h := C10_dadanwang_single "预算 5 元《工程》".data
    ⟨[], "中标公告".data⟩ "d".data "ts"
  exact ⟨h.1, h.2 "中标".data (by decide) (by decide)⟩

/-- Invariant of the pagination loop: starting at offset `k * pageSize`
with the trace of the first `k` offsets, a self-halting run produces a
trace of consecutive page-size multiples, every offset before the last
followed a successful non-empty page, and the run ended at the cap or on a
failed or empty page. -/
theorem fetchLoop_pagination (env : Nat → Option (List Fetcher.PageItem))
    (keywords : List String) (andLogic : Bool) (limit pageSize : Nat) :
    ∀ fuel k arts res,
      Fetcher.fetchLoop env keywords andLogic limit pageSize fuel arts
        (k * pageSize) ((List.range k).map (fun i => i * pageSize)) = res →
      res.2.2 = true →
      ∃ m, k ≤ m ∧
        res.2.1 = (List.range m).map (fun i => i * pageSize) ∧
        (∀ i, k ≤ i → i + 1 < m →
          ∃ items, env (i * pageSize) = some items ∧ items ≠ []) ∧
        ((m = k ∧ res.1 = arts ∧ limit ≤ arts.length) ∨
         (k < m ∧ (env ((m - 1) * pageSize) = none ∨
                   env ((m - 1) * pageSize) = some [] ∨
                   limit ≤ res.1.length))) := by
  intro fuel
  induction fuel with
  | zero =>
    intro k arts res hres hok
    rw [Fetcher.fetchLoop] at hres
    rw [← hres] at hok
    cases hok
  | succ n ih =>
    intro k arts res hres hok
    rw [Fetcher.fetchLoop] at hres
    by_cases hcap : limit ≤ arts.length
    · rw [if_pos hcap] at hres
      refine ⟨k, le_refl k, ?_, ?_, Or.inl ⟨rfl, ?_, hcap⟩⟩
      · rw [← hres]
      · intro i hki hik
        omega
      · rw [← hres]
    · rw [if_neg hcap] at hres
      have htr : (List.range k).map (fun i => i * pageSize) ++ [k * pageSize] =
          (List.range (k + 1)).map (fun i => i * pageSize) := by
        rw [List.range_succ, List.map_append]
        rfl
      cases henv : env (k * pageSize) with
      | none =>
        rw [henv] at hres
        simp only at hres
        refine ⟨k + 1, by omega, ?_, ?_, Or.inr ⟨by omega, Or.inl ?_⟩⟩
        · rw [← hres]
          exact htr
        · intro i hki hik
          omega
        · simpa using henv
      | some items =>
        rw [henv] at hres
        simp only at hres
        by_cases hempty : items.isEmpty
        · rw [if_pos hempty] at hres
          refine ⟨k + 1, by omega, ?_, ?_, Or.inr ⟨by omega, Or.inr (Or.inl ?_)⟩⟩
          · rw [← hres]
            exact htr
          · intro i hki hik
            omega
          · rw [List.isEmpty_iff.mp hempty] at henv
            simpa using henv
        · rw [if_neg hempty] at hres
          rw [htr] at hres
          have hbegin : k * pageSize + pageSize = (k + 1) * pageSize := by
            rw [Nat.succ_mul]
          rw [hbegin] at hres
          obtain ⟨m, hkm, htrace, hmid, hend⟩ := ih (k + 1)
            (Fetcher.collectItems keywords andLogic limit arts items) res hres hok
          refine ⟨m, by omega, htrace, ?_, ?_⟩
          · intro i hki hik
            rcases Nat.eq_or_lt_of_le hki with rfl | hlt
            · exact ⟨items, henv, fun hnil => hempty (by rw [hnil]; rfl)⟩
            · exact hmid i hlt hik
          · rcases hend with ⟨hm, h1, hcap2⟩ | ⟨hm, hrest⟩
            · refine Or.inr ⟨by omega, Or.inr (Or.inr ?_)⟩
              rw [h1]
              exact hcap2
            · exact Or.inr ⟨by omega, hrest⟩

/-- C8 counterexample: page zero returns a single item, fewer than the
page size of two, yet the loop requests offsets two and four afterwards;
under the claim the trace would have stopped at offset zero. -/
theorem C8_counterexample :
    Fetcher.envShortPage 0 =
      some [{ title := "招标A", link := "http://a", digest := "" }] ∧
    ([{ title := "招标A", link := "http://a", digest := "" }] :
      List Fetcher.PageItem).length < 2 ∧
    (Fetcher.fetchArticleList Fetcher.envShortPage [] false 3 2 true 10).2.1 =
      [0, 2, 4] := by
  decide

/-- C8 (amended): in a self-halting fetch run the requested offsets are
exactly the consecutive multiples of the page size starting at zero, an
offset is only requested after the previous one returned a successful
non-empty page, and the run stops at a failed page, an empty page or the
article cap; a short but non-empty page does not by itself stop the loop. -/
theorem C8_pagination_contract (env : Nat → Option (List Fetcher.PageItem))
    (keywords : List String) (andLogic : Bool) (limit pageSize fuel : Nat)
    (hlim : 0 < limit)
    (hok : (Fetcher.fetchArticleList env keywords andLogic limit pageSize
      true fuel).2.2 = true) :
    ∃ m, 0 < m ∧
      (Fetcher.fetchArticleList env keywords andLogic limit pageSize
        true fuel).2.1 = (List.range m).map (fun i => i * pageSize) ∧
      (∀ i, i + 1 < m →
        ∃ items, env (i * pageSize) = some items ∧ items ≠ []) ∧
      (env ((m - 1) * pageSize) = none ∨
       env ((m - 1) * pageSize) = some [] ∨
       (Fetcher.fetchArticleList env keywords andLogic limit pageSize
         true fuel).1.length = limit) := by
  have hlim0 : ¬(limit = 0 || !true) = true := by
    simp
    omega
  rw [Fetcher.fetchArticleList, if_neg hlim0] at hok ⊢
  obtain ⟨m, _, htrace, hmid, hend⟩ := fetchLoop_pagination env keywords
    andLogic limit pageSize fuel 0 []
    (Fetcher.fetchLoop env keywords andLogic limit pageSize fuel [] 0 [])
    (by rw [Nat.zero_mul]; rfl) hok
  refine ⟨m, ?_, htrace, fun i hik => hmid i (Nat.zero_le i) hik, ?_⟩
  · rcases hend with ⟨_, _, hcap⟩ | ⟨hm, _⟩
    · simp at hcap
      omega
    · omega
  · rcases hend with ⟨_, _, hcap⟩ | ⟨_, hrest⟩
    · simp at hcap
      omega
    · rcases hrest with h | h | h
      · exact Or.inl h
      · exact Or.inr (Or.inl h)
      · refine Or.inr (Or.inr ?_)
        simp only [List.length_take]
        omega

/-- Witness for C8 on the short-page environment: two successful short
pages, then a failed page ends the run. -/
theorem C8_pagination_contract_witness :
    0 < 3 ∧
    (Fetcher.fetchArticleList Fetcher.envShortPage [] false 3 2 true 10).2.2 =
      true ∧
    (∃ m, 0 < m ∧
      (Fetcher.fetchArticleList Fetcher.envShortPage [] false 3 2 true
        10).2.1 = (List.range m).map (fun i => i * 2) ∧
      (∀ i, i + 1 < m → ∃ items, Fetcher.envShortPage (i * 2) = some items ∧
        items ≠ []) ∧
      (Fetcher.envShortPage ((m - 1) * 2) = none ∨
       Fetcher.envShortPage ((m - 1) * 2) = some [] ∨
       (Fetcher.fetchArticleList Fetcher.envShortPage [] false 3 2 true
         10).1.length = 3)) :=
  ⟨by decide, by decide,
   C8_pagination_contract Fetcher.envShortPage [] false 3 2 10
     (by decide) (by decide)⟩

/-- The search loop returns the first matching candidate: if the `k`-th
candidate matches and no earlier one does, the scan from `cand` with
enough fuel stops exactly there. -/
theorem nextAfterAux_finds (c : Cron.CronExpr) :
    ∀ k fuel cand, k < fuel → Cron.matchAt c (cand + k) = true →
      (∀ j, j < k → Cron.matchAt c (cand + j) = false) →
      Cron.nextAfterAux c fuel cand = some (cand + k) := by
  intro k
  induction k with
  | zero =>
    intro fuel cand hf hm _
    match fuel, hf with
    | f + 1, _ =>
      rw [Cron.nextAfterAux, if_pos (by simpa using hm)]
      simp
  | succ k ih =>
    intro fuel cand hf hm hnone
    match fuel, hf with
    | f + 1, hf =>
      rw [Cron.nextAfterAux,
          if_neg (by simpa using hnone 0 (Nat.succ_pos k))]
      have := ih f (cand + 1) (by omega)
        (by
          have ha : cand + 1 + k = cand + (k + 1) := by omega
          rw [ha]
          exact hm)
        (fun j hj => by
          have ha : cand + 1 + j = cand + (j + 1) := by omega
          rw [ha]
          exact hnone (j + 1) (by omega))
      rw [this]
      congr 1
      omega

/-- Membership in the expanded minute list of the five-minute cron equals
divisibility by five, for minute values below sixty. -/
theorem matchAt_five (c : Cron.CronExpr)
    (hc : Cron.mkSimpleCron "*/5 * * * *" = some c) :
    ∀ t, Cron.matchAt c t = true ↔ t % 5 = 0 := by
  have hc5 : c = ⟨some (Cron.rangeStep 0 59 5), none, none, none, none⟩ := by
    have : Cron.mkSimpleCron "*/5 * * * *" =
        some ⟨some (Cron.rangeStep 0 59 5), none, none, none, none⟩ := by decide
    rw [this] at hc
    injection hc with h
    exact h.symm
  subst hc5
  intro t
  have hlt : t % 60 < 60 := Nat.mod_lt t (by omega)
  have hmem : ∀ x : Nat, x < 60 →
      (((x : Nat) : Int) ∈ Cron.rangeStep 0 59 5 ↔ x % 5 = 0) := by decide
  have hmod : t % 60 % 5 = t % 5 := Nat.mod_mod_of_dvd t (by omega)
  rw [Cron.matchAt]
  simp only [Cron.minuteOf, Bool.and_true, decide_eq_true_eq]
  rw [hmem (t % 60) hlt, hmod]

/-- C9: evaluating the five-minute cron at any instant (minute count `m`
plus `s` seconds) yields a trigger strictly after the instant and at most
five minutes later; it is the first minute divisible by five after the
truncated instant, found by the minute-by-minute scan capped at a year. -/
theorem C9_cron_five_minute (m s : Nat) (hs : s < 60) :
    ∃ r, Cron.nextAfterExpr "*/5 * * * *" m = some r ∧
      m * 60 + s < r * 60 ∧ r * 60 ≤ m * 60 + s + 300 ∧
      r % 5 = 0 ∧ (∀ t, m < t → t < r → t % 5 ≠ 0) := by
  obtain ⟨c, hc⟩ : ∃ c, Cron.mkSimpleCron "*/5 * * * *" = some c :=
    ⟨⟨some (Cron.rangeStep 0 59 5), none, none, none, none⟩, by decide⟩
  have hmatch := matchAt_five c hc
  refine ⟨m + 1 + (5 - (m + 1) % 5) % 5, ?_, by omega, by omega, by omega, ?_⟩
  · rw [Cron.nextAfterExpr, hc]
    show Cron.nextAfter c m = some (m + 1 + (5 - (m + 1) % 5) % 5)
    rw [Cron.nextAfter]
    refine nextAfterAux_finds c ((5 - (m + 1) % 5) % 5) 525600 (m + 1)
      (by omega) ?_ ?_
    · rw [hmatch]
      omega
    · intro j hj
      cases hb : Cron.matchAt c (m + 1 + j) with
      | false => rfl
      | true =>
        have := (hmatch (m + 1 + j)).mp hb
        omega
  · intro t hmt htr
    omega

/-- Witness for C9 at minute seven plus thirty seconds. -/
theorem C9_cron_five_minute_witness :
    30 < 60 ∧ (∃ r, Cron.nextAfterExpr "*/5 * * * *" 7 = some r ∧
      7 * 60 + 30 < r * 60 ∧ r * 60 ≤ 7 * 60 + 30 + 300 ∧
      r % 5 = 0 ∧ (∀ t, 7 < t → t < r → t % 5 ≠ 0)) :=
  ⟨by decide, C9_cron_five_minute 7 30 (by decide)⟩

/-! Helper lemmas for the block splitting equivalence (claim C5). -/

theorem pyIsSpace_not_digit (c : Char) (h : pyIsSpace c = true) :
    c.isDigit = false := by
  simp [pyIsSpace, Char.toNat] at h
  simp [Char.isDigit]
  intro hle
  have h48 : (48 : Nat) ≤ c.val.toNat := hle
  show (57 : Nat) < c.val.toNat
  omega

theorem getD_eq_headD_drop {α : Type} (l : List α) (n : Nat) (d : α) :
    l.getD n d = (l.drop n).headD d := by
  induction l generalizing n with
  | nil => cases n <;> rfl
  | cons x xs ih =>
    cases n with
    | zero => rfl
    | succ m => simpa using ih m

theorem headD_append_left {α : Type} (l1 l2 : List α) (d : α) (h : l1 ≠ []) :
    (l1 ++ l2).headD d = l1.headD d := by
  cases l1 with
  | nil => exact absurd rfl h
  | cons x xs => rfl

theorem drop_append_right {α : Type} (l1 l2 : List α) (m : Nat) :
    (l1 ++ l2).drop (l1.length + m) = l2.drop m := by
  rw [← List.drop_drop, List.drop_left]

theorem takeWhile_append_drop {α : Type} (l : List α) (pred : α → Bool) :
    l.takeWhile pred ++ l.drop (l.takeWhile pred).length = l := by
  obtain ⟨r, hr⟩ := List.takeWhile_prefix (l := l) pred
  have hlen : l.drop (l.takeWhile pred).length = r := by
    nth_rewrite 2 [← hr]
    rw [List.drop_left]
  rw [hlen, hr]

namespace DefaultParser

theorem label_not_digit (c : Char) (h : c ∈ projectNameLabel) :
    c.isDigit = false := by
  simp [projectNameLabel] at h
  rcases h with rfl | rfl | rfl | rfl <;> decide

theorem markCond_eq (tx : List Char) (p : Nat) (s : List Char)
    (hs : tx.drop p = s) :
    markCond tx p =
      (!(s.takeWhile Char.isDigit).isEmpty &&
        projectNameLabel.isPrefixOf
          ((s.drop (s.takeWhile Char.isDigit).length).drop
            ((s.drop (s.takeWhile Char.isDigit).length).takeWhile
              pyIsSpace).length)) := by
  rw [markCond, hs]

/-- A matching position decomposes the suffix into the maximal digit run,
the maximal whitespace run, the label, and a remainder. -/
theorem markCond_decomp (tx : List Char) (p : Nat)
    (hm : markCond tx p = true) :
    ∃ u, tx.drop p =
      (tx.drop p).takeWhile Char.isDigit ++
        (((tx.drop p).drop
            ((tx.drop p).takeWhile Char.isDigit).length).takeWhile pyIsSpace ++
          (projectNameLabel ++ u)) ∧
      (tx.drop p).takeWhile Char.isDigit ≠ [] := by
  rw [markCond_eq tx p (tx.drop p) rfl, Bool.and_eq_true] at hm
  obtain ⟨h1, h2⟩ := hm
  obtain ⟨u, hu⟩ := List.isPrefixOf_iff_prefix.mp h2
  refine ⟨u, ?_, by simpa using h1⟩
  conv_lhs => rw [← takeWhile_append_drop (tx.drop p) Char.isDigit]
  congr 1
  conv_lhs => rw [← takeWhile_append_drop
    ((tx.drop p).drop ((tx.drop p).takeWhile Char.isDigit).length) pyIsSpace]
  congr 1
  exact hu.symm

/-- Jumping into a match from the left: if the predecessor of a matching
position is a digit, the predecessor position matches as well (the digit
run simply grows by one). -/
theorem markCond_pred (tx : List Char) (p : Nat) (hp : 1 ≤ p)
    (hd : (tx.getD (p - 1) ' ').isDigit = true)
    (hm : markCond tx p = true) : markCond tx (p - 1) = true := by
  have hne : tx.drop p ≠ [] := by
    intro hnil
    rw [markCond_eq tx p [] hnil] at hm
    simp at hm
  have hplen : p < tx.length := by
    by_contra h
    push_neg at h
    exact hne (List.drop_eq_nil_of_le h)
  have hp1 : p - 1 < tx.length := by omega
  have hcons : tx.drop (p - 1) = tx[p - 1] :: tx.drop p := by
    have e : p - 1 + 1 = p := by omega
    rw [List.drop_eq_getElem_cons hp1, e]
  have hdig : Char.isDigit tx[p - 1] = true := by
    rw [List.getD_eq_getElem tx ' ' hp1] at hd
    exact hd
  rw [markCond_eq tx (p - 1) _ hcons,
      List.takeWhile_cons_of_pos hdig]
  rw [markCond_eq tx p (tx.drop p) rfl, Bool.and_eq_true] at hm
  obtain ⟨h1, h2⟩ := hm
  simp only [List.length_cons, List.drop_succ_cons, Bool.and_eq_true]
  exact ⟨by simp, h2⟩

/-- Positions strictly inside a match are not marks: inside the digit run
the predecessor is a digit, and past it the character itself is a
whitespace or a label character, hence not a digit. -/
theorem inner_no_mark (tx : List Char) (p : Nat) (d w u : List Char)
    (hsplit : tx.drop p = d ++ (w ++ (projectNameLabel ++ u)))
    (hd : ∀ x ∈ d, x.isDigit = true) (hw : ∀ x ∈ w, pyIsSpace x = true) :
    ∀ i, 1 ≤ i → i < d.length + w.length + 4 → isMark tx (p + i) = false := by
  have hlab4 : projectNameLabel.length = 4 := rfl
  intro i h1 hiL
  by_cases hid : i ≤ d.length
  · have hdr : tx.drop (p + i - 1) = d.drop (i - 1) ++ (w ++ (projectNameLabel ++ u)) := by
      have e : tx.drop (p + i - 1) = (tx.drop p).drop (i - 1) := by
        rw [List.drop_drop]
        congr 1
        omega
      rw [e, hsplit, List.drop_append_of_le_length (by omega)]
    have hne : d.drop (i - 1) ≠ [] := by
      intro hnil
      have := congrArg List.length hnil
      simp [List.length_drop] at this
      omega
    obtain ⟨x, xs, hx⟩ := List.exists_cons_of_ne_nil hne
    have hxd : x ∈ d := List.drop_subset _ _ (hx ▸ List.mem_cons_self x xs)
    have hgd : tx.getD (p + i - 1) ' ' = x := by
      rw [getD_eq_headD_drop, hdr, hx]
      rfl
    rw [isMark, runStart, hgd, hd x hxd]
    have hq0 : ¬(p + i = 0) := by omega
    simp [hq0]
  · push_neg at hid
    have hdr : tx.drop (p + i) = (w ++ (projectNameLabel ++ u)).drop (i - d.length) := by
      have e : tx.drop (p + i) = (tx.drop p).drop i := by
        rw [List.drop_drop]
      rw [e, hsplit]
      have e2 : (d ++ (w ++ (projectNameLabel ++ u))).drop i =
          (d ++ (w ++ (projectNameLabel ++ u))).drop
            (d.length + (i - d.length)) := by
        congr 1
        omega
      rw [e2, drop_append_right]
    by_cases hiw : i - d.length < w.length
    · have hdr2 : tx.drop (p + i) = w.drop (i - d.length) ++ (projectNameLabel ++ u) := by
        rw [hdr, List.drop_append_of_le_length (by omega)]
      have hne : w.drop (i - d.length) ≠ [] := by
        intro hnil
        have := congrArg List.length hnil
        simp [List.length_drop] at this
        omega
      obtain ⟨x, xs, hx⟩ := List.exists_cons_of_ne_nil hne
      have hxw : x ∈ w := List.drop_subset _ _ (hx ▸ List.mem_cons_self x xs)
      have hcons : tx.drop (p + i) = x :: (xs ++ (projectNameLabel ++ u)) := by
        rw [hdr2, hx]
        rfl
      rw [isMark, markCond_eq tx (p + i) _ hcons]
      simp [List.takeWhile_cons, pyIsSpace_not_digit x (hw x hxw)]
    · push_neg at hiw
      have hj : i - d.length - w.length < 4 := by omega
      have hdr2 : tx.drop (p + i) =
          projectNameLabel.drop (i - d.length - w.length) ++ u := by
        rw [hdr]
        have e2 : (w ++ (projectNameLabel ++ u)).drop (i - d.length) =
            (w ++ (projectNameLabel ++ u)).drop
              (w.length + (i - d.length - w.length)) := by
          congr 1
          omega
        rw [e2, drop_append_right,
            List.drop_append_of_le_length (by rw [hlab4]; omega)]
      have hne : projectNameLabel.drop (i - d.length - w.length) ≠ [] := by
        intro hnil
        have := congrArg List.length hnil
        simp [List.length_drop, hlab4] at this
        omega
      obtain ⟨x, xs, hx⟩ := List.exists_cons_of_ne_nil hne
      have hxl : x ∈ projectNameLabel :=
        List.drop_subset _ _ (hx ▸ List.mem_cons_self x xs)
      have hcons : tx.drop (p + i) = x :: (xs ++ u) := by
        rw [hdr2, hx]
        rfl
      rw [isMark, markCond_eq tx (p + i) _ hcons]
      simp [List.takeWhile_cons, label_not_digit x hxl]

/-- The character just before the resume position of a match is the last
label character, hence not a digit. -/
theorem after_match_not_digit (tx : List Char) (p : Nat) (d w u : List Char)
    (hsplit : tx.drop p = d ++ (w ++ (projectNameLabel ++ u))) :
    (tx.getD (p + (d.length + w.length + 4) - 1) ' ').isDigit = false := by
  have hdr : tx.drop (p + (d.length + w.length + 4) - 1) =
      projectNameLabel.drop 3 ++ u := by
    have e : tx.drop (p + (d.length + w.length + 4) - 1) =
        (tx.drop p).drop (d.length + w.length + 3) := by
      rw [List.drop_drop]
      congr 1
    rw [e, hsplit]
    have e2 : d.length + w.length + 3 = d.length + (w.length + 3) := by omega
    rw [e2, drop_append_right, drop_append_right,
        List.drop_append_of_le_length (by simp [projectNameLabel])]
  rw [getD_eq_headD_drop, hdr]
  rfl

/-- The finditer scan reports exactly the positions where the marker
pattern matches at the start of a maximal digit run. The two extra
hypotheses are the loop invariant: positions already inside a consumed
match are never marks, and at the resume position the scan cannot be in
the middle of a digit run that started earlier. -/
theorem scanMarks_eq_filter (tx : List Char) :
    ∀ s skip p, tx.drop p = s →
      (∀ q, p ≤ q → q < p + skip → isMark tx q = false) →
      (p + skip = 0 ∨ (tx.getD (p + skip - 1) ' ').isDigit = false ∨
        markCond tx (p + skip - 1) = false) →
      scanMarks skip p s =
        (List.range' p (tx.length - p)).filter (isMark tx) := by
  intro s
  induction s with
  | nil =>
    intro skip p hs _ _
    have hlen : tx.length - p = 0 := by
      rw [← List.length_drop, hs]
      rfl
    rw [hlen]
    cases skip <;> rfl
  | cons c t ih =>
    intro skip p hs hfalse hentry
    have hp : p < tx.length := by
      by_contra hcon
      push_neg at hcon
      rw [List.drop_eq_nil_of_le hcon] at hs
      cases hs
    have hdrop1 : tx.drop (p + 1) = t := by
      have e : tx.drop (p + 1) = (tx.drop p).drop 1 := by
        rw [List.drop_drop]
      rw [e, hs]
      rfl
    have hrange : List.range' p (tx.length - p) =
        p :: List.range' (p + 1) (tx.length - (p + 1)) := by
      have hlen : tx.length - p = (tx.length - (p + 1)) + 1 := by omega
      rw [hlen, List.range'_succ]
    cases skip with
    | succ k =>
      have hpf : isMark tx p = false := hfalse p (le_refl p) (by omega)
      rw [scanMarks, hrange, List.filter_cons, hpf]
      simp only [Bool.false_eq_true, if_false]
      exact ih k (p + 1) hdrop1
        (fun q h1 h2 => hfalse q (by omega) (by omega))
        (by
          have e : p + 1 + k = p + (k + 1) := by omega
          rw [e]
          exact hentry)
    | zero =>
      rw [Nat.add_zero] at hentry
      rw [scanMarks]
      split
      · next hcnd =>
        have hmk : markCond tx p = true := by
          rw [markCond_eq tx p (c :: t) hs]
          exact hcnd
        obtain ⟨u, hsplit0, _⟩ := markCond_decomp tx p hmk
        rw [hs] at hsplit0
        have hsplit : tx.drop p =
            (c :: t).takeWhile Char.isDigit ++
              (((c :: t).drop ((c :: t).takeWhile Char.isDigit).length).takeWhile
                  pyIsSpace ++ (projectNameLabel ++ u)) := by
          rw [hs]
          exact hsplit0
        have hinner := inner_no_mark tx p _ _ u hsplit
          (fun x hx => List.mem_takeWhile_imp hx)
          (fun x hx => List.mem_takeWhile_imp hx)
        have hafter := after_match_not_digit tx p _ _ u hsplit
        have hrs : runStart tx p = true := by
          rw [runStart]
          rcases hentry with h0 | hnd | hmc
          · simp [h0]
          · rw [hnd]
            simp
          · rcases Nat.eq_zero_or_pos p with rfl | hp1
            · simp
            · have hnd2 : (tx.getD (p - 1) ' ').isDigit = false := by
                by_contra hcon
                rw [Bool.not_eq_false] at hcon
                rw [markCond_pred tx p hp1 hcon hmk] at hmc
                cases hmc
              rw [hnd2]
              simp
        have hmark : isMark tx p = true := by
          rw [isMark, hmk, hrs]
          rfl
        rw [hrange, List.filter_cons, hmark]
        simp only [reduceIte]
        congr 1
        refine ih _ (p + 1) hdrop1 ?_ ?_
        · intro q h1 h2
          have := hinner (q - p) (by omega) (by omega)
          have e : p + (q - p) = q := by omega
          rw [e] at this
          exact this
        · refine Or.inr (Or.inl ?_)
          have e : p + 1 +
              (((c :: t).takeWhile Char.isDigit).length +
                (((c :: t).drop
                    ((c :: t).takeWhile Char.isDigit).length).takeWhile
                    pyIsSpace).length + 4 - 1) - 1 =
              p + (((c :: t).takeWhile Char.isDigit).length +
                (((c :: t).drop
                    ((c :: t).takeWhile Char.isDigit).length).takeWhile
                    pyIsSpace).length + 4) - 1 := by
            omega
          rw [e]
          exact hafter
      · next hcnd =>
        have hmk : markCond tx p = false := by
          rw [markCond_eq tx p (c :: t) hs]
          exact Bool.eq_false_iff.mpr hcnd
        have hpf : isMark tx p = false := by
          rw [isMark, hmk]
          rfl
        rw [hrange, List.filter_cons, hpf]
        simp only [Bool.false_eq_true, if_false]
        refine ih 0 (p + 1) hdrop1 (fun q h1 h2 => by omega) ?_
        refine Or.inr (Or.inr ?_)
        have e : p + 1 + 0 - 1 = p := by omega
        rw [e]
        exact hmk

end DefaultParser

/-- C5 counterexample: in the text `abc1 项目名称X预算` no digit run is
immediately followed by the label (a space intervenes), so under the claim
the whole text would be a single block; the code pattern allows whitespace
and starts the block at the digit, discarding the leading text. -/
theorem C5_counterexample :
    DefaultParser.specSplitStrict "abc1 项目名称X预算".data =
      ["abc1 项目名称X预算".data] ∧
    DefaultParser.splitProjects "abc1 项目名称X预算".data =
      ["1 项目名称X预算".data] ∧
    DefaultParser.specSplitStrict "abc1 项目名称X预算".data ≠
      DefaultParser.splitProjects "abc1 项目名称X预算".data := by
  refine ⟨by decide, by decide, by decide⟩

/-- C5 (amended): the splitter equals the spec-level description with the
marker condition read as a maximal run of digits followed, possibly after
whitespace, by the label: blocks begin exactly at such positions, text
before the first marker is discarded, a marker-free text containing the
label is a single block, and a text without the label yields no blocks. -/
theorem C5_split_contract (text : List Char) :
    DefaultParser.splitProjects text = DefaultParser.specSplit text := by
  rw [DefaultParser.splitProjects, DefaultParser.specSplit]
  have hm : DefaultParser.scanMarks 0 0 text =
      (List.range text.length).filter (DefaultParser.isMark text) := by
    rw [List.range_eq_range']
    have h := DefaultParser.scanMarks_eq_filter text text 0 0
      (List.drop_zero text) (fun q h1 h2 => by omega)
      (Or.inl rfl)
    rw [Nat.sub_zero] at h
    exact h
  rw [hm]

/-- C7 counterexample: a URL padded with whitespace is stored trimmed, so
the immediate crawled-check with the original URL fails even though the
save succeeded; the claim quantifies over every URL and is false here. -/
theorem C7_counterexample :
    (DataManager.saveArticle "t0" []
      { url := " u", title := "", author := "", publish_time := "",
        digest := "", has_bid_info := false, bid_count := 0 }).2 = true ∧
    DataManager.isArticleCrawled
      (DataManager.saveArticle "t0" []
        { url := " u", title := "", author := "", publish_time := "",
          digest := "", has_bid_info := false, bid_count := 0 }).1 " u" = false := by
  decide

/-- C7 (amended): for every URL that equals its trimmed form, a successful
save makes the crawled-check true at once, and a second save of the same
URL returns false without touching the store. -/
theorem C7_url_roundtrip (now : String) (stored : List DataManager.ArticleRow)
    (a : DataManager.ArticleData) (htrim : pyStripS a.url = a.url)
    (hok : (DataManager.saveArticle now stored a).2 = true) :
    DataManager.isArticleCrawled (DataManager.saveArticle now stored a).1
      a.url = true ∧
    (∀ now2 a2, a2.url = a.url →
      DataManager.saveArticle now2 (DataManager.saveArticle now stored a).1 a2 =
        ((DataManager.saveArticle now stored a).1, false)) := by
  by_cases h1 : pyStripS a.url = ""
  · rw [DataManager.saveArticle, if_pos h1] at hok
    cases hok
  · by_cases h2 : stored.any (fun row => row.url = pyStripS a.url)
    · rw [DataManager.saveArticle, if_neg h1] at hok
      rw [if_pos h2] at hok
      cases hok
    · have hst : (DataManager.saveArticle now stored a).1 =
          stored ++ [{ url := pyStripS a.url, title := a.title,
                       author := a.author, publish_time := a.publish_time,
                       digest := a.digest, crawled_time := now,
                       has_bid_info := a.has_bid_info,
                       bid_count := a.bid_count }] := by
        rw [DataManager.saveArticle, if_neg h1]
        rw [if_neg (by simp [h2])]
      constructor
      · rw [hst, DataManager.isArticleCrawled,
            if_neg (by rw [← htrim]; exact h1)]
        simp [htrim]
      · intro now2 a2 ha2
        have hne : a.url ≠ "" := htrim ▸ h1
        rw [DataManager.saveArticle, ha2, htrim]
        rw [if_neg hne]
        rw [if_pos (by rw [hst]; simp [htrim])]

/-- Witness for C7 on a clean URL over the empty store. -/
theorem C7_url_roundtrip_witness :
    pyStripS "u" = "u" ∧
    (DataManager.saveArticle "t0" []
      { url := "u", title := "", author := "", publish_time := "",
        digest := "", has_bid_info := false, bid_count := 0 }).2 = true ∧
    DataManager.isArticleCrawled
      (DataManager.saveArticle "t0" []
        { url := "u", title := "", author := "", publish_time := "",
          digest := "", has_bid_info := false, bid_count := 0 }).1 "u" = true := by
  have h := C7_url_roundtrip "t0" []
    { url := "u", title := "", author := "", publish_time := "",
      digest := "", has_bid_info := false, bid_count := 0 }
    (by decide) (by decide)
  exact ⟨by decide, by decide, h.1⟩

end Crawler
